import Mathlib

/-!
Shallow embedding of the GSO_Draft report engine
(`apps/gso_reports/models.py`, `apps/gso_reports/utils.py`,
`apps/gso_reports/views.py`) together with theorems settling the
frozen claims about its specification.

Conventions of the embedding:
* Django model instances become Lean structures; the persistent store
  becomes explicit lists of those structures carried in an `Env`
  record (plus, for the IPMT upsert, an explicit draft-store list).
* Python `str` operations are embedded over `String` / `List Char`
  (`in` = contiguous substring, `.split()` = whitespace tokenization,
  `.split(",")` / `.split()` = `splitByPred`, `.strip()` = `pyStrip`,
  `.lower()` = `lowerStr`); Unicode edge cases of `str.lower`/`str.strip`
  are outside the model.
* Fallible Python code (uncaught exceptions, HTTP error returns)
  becomes `Option` / `Except String`.
* Django `DecimalField(max_digits=12, decimal_places=2)` amounts are
  embedded as integers (amount in centavos); nullable numeric fields
  as `Option Int`.
-/

namespace GSO

/-- Python truthiness fallback `x or 0` on a nullable numeric field
(`None` and `0` are both falsy and both yield `0`). -/
def pyOrZero : Option Int → Int
  | none => 0
  | some x => x

/-- Python `a or b` for strings: `a` when non-empty, else `b`. -/
def pyOrStr (a b : String) : String :=
  if a = "" then b else a

/-- Python `a or b` where `a` is a nullable string (`None` and `""`
are falsy). -/
def pyOrOptStr (a : Option String) (b : String) : String :=
  match a with
  | none => b
  | some s => pyOrStr s b

/-- Python `s.lower()` (ASCII case mapping, as in Lean's
`Char.toLower`; full-Unicode case folding is outside the model). -/
def lowerStr (s : String) : String :=
  ⟨s.data.map Char.toLower⟩

/-- Leading and trailing whitespace removal on character lists. -/
def trimChars (s : List Char) : List Char :=
  ((s.dropWhile Char.isWhitespace).reverse.dropWhile Char.isWhitespace).reverse

/-- Python `s.strip()`. -/
def pyStrip (s : String) : String :=
  ⟨trimChars s.data⟩

/-- Split a character list at every character satisfying `p`, keeping
empty parts (the semantics of `str.split(sep)` for a one-character
separator, and of splitting at each whitespace character). -/
def splitByPred (p : Char → Bool) : List Char → List (List Char)
  | [] => [[]]
  | c :: t =>
    if p c then [] :: splitByPred p t
    else
      match splitByPred p t with
      | [] => [[c]]
      | h :: r => (c :: h) :: r

/-- Contiguous-substring test on character lists: Python `needle in hay`
(`"" in s` is `True`, matching the base case). -/
def containsSub (needle : List Char) : List Char → Bool
  | [] => needle.isEmpty
  | c :: t => needle.isPrefixOf (c :: t) || containsSub needle t

/-- Python `needle in hay` on strings. -/
def strIn (needle hay : String) : Bool :=
  containsSub needle.data hay.data

/-- Python `s.split()`: split on whitespace runs, dropping empty parts. -/
def pySplitWs (s : String) : List String :=
  ((splitByPred Char.isWhitespace s.data).map
    (fun part => (⟨part⟩ : String))).filter (fun t => t ≠ "")

/-- Python `s.split()[0]`: `none` models the `IndexError` raised when
`s` has no whitespace-delimited token. -/
def firstToken (s : String) : Option String :=
  (pySplitWs s).head?

/-- Case-insensitive exact string comparison, embedding Django's
`__iexact` lookup. -/
def iexact (a b : String) : Bool :=
  lowerStr a == lowerStr b

/-- Python `f"{m:02d}"` for the month component (always non-negative in
the flows below; negative values print without padding, as in Python). -/
def pad2 (m : Int) : String :=
  if 0 ≤ m ∧ m < 10 then "0" ++ toString m else toString m

/-- Python `f"{year}-{month_num:02d}"` (the `IPMTDraft.month` filter key
built in `collect_ipmt_reports`). -/
def monthKey (year month : Int) : String :=
  toString year ++ "-" ++ pad2 month

/-- Value of a non-empty all-digit string, reading decimal digits. -/
def digitsVal : List Char → Option Int
  | [] => none
  | ds =>
    if ds.all Char.isDigit then
      some (ds.foldl (fun acc c => acc * 10 + (c.toNat - '0'.toNat)) 0)
    else none

/-- Python `int(s)` on a string: optional surrounding whitespace,
optional single sign, then one or more decimal digits.  (CPython also
accepts underscores between digits; that sugar is outside the model
and unused by the month-filter flows.) -/
def pyInt : String → Option Int
  | s =>
    match (pyStrip s).data with
    | '+' :: ds => digitsVal ds
    | '-' :: ds => (digitsVal ds).map Int.neg
    | ds => digitsVal ds

/- ---------------------------------------------------------------
   Data model (apps/gso_reports/models.py and the external models it
   references: Unit and User from apps/gso_accounts, ServiceRequest
   from apps/gso_requests, whose modules are not part of src/; their
   fields are taken from how this code reads them).
   --------------------------------------------------------------- -/

/-- `apps.gso_accounts.models.Unit` as read by this app: a primary key
and a `name` used for `__iexact` lookups. -/
structure Unit where
  id : Nat
  name : String
deriving DecidableEq

/-- Django user as read by this app: `first_name`/`last_name` feed
`get_full_name`, `username` is the login name. -/
structure User where
  id : Nat
  username : String
  first_name : String
  last_name : String
deriving DecidableEq

/-- Django `User.get_full_name()`: first and last name joined by a
space, stripped. -/
def User.get_full_name (u : User) : String :=
  pyStrip (u.first_name ++ " " ++ u.last_name)

/-- `p.get_full_name() or p.username` as used throughout the app. -/
def User.displayName (u : User) : String :=
  pyOrStr u.get_full_name u.username

/-- Requesting department of a `ServiceRequest` (only its `name` is
read). -/
structure Department where
  name : String
deriving DecidableEq

/-- A calendar date (`datetime.date`). -/
structure PyDate where
  year : Int
  month : Int
  day : Int
deriving DecidableEq

/-- The shapes a stored start date can take at runtime, mirroring the
`isinstance`/`timezone.is_naive` branching of `normalize_report`:
a plain `date`, a naive `datetime`, or an aware `datetime`
(time-of-day condensed to minutes past midnight). -/
inductive DateLike where
  | justDate (d : PyDate)
  | naive (d : PyDate) (minutes : Nat)
  | aware (d : PyDate) (minutes : Nat)
deriving DecidableEq

/-- Calendar date carried by a `DateLike` (Django's `__year`/`__month`
lookups read it). -/
def DateLike.date : DateLike → PyDate
  | .justDate d => d
  | .naive d _ => d
  | .aware d _ => d

/-- `apps.gso_requests.models.ServiceRequest` as read by this app. -/
structure ServiceRequest where
  id : Nat
  department : Option Department
  description : String
  unit : Option Unit
  created_at : DateLike
  assigned_personnel : List User
  status : String
  rating : Option Int
deriving DecidableEq

/-- `ActivityName` (models.py): a standardized activity label with a
comma-separated keyword string and an active flag. -/
structure ActivityName where
  name : String
  keywords : String
  is_active : Bool
deriving DecidableEq

/-- `ActivityName.keyword_list` (models.py): split the keyword string
on commas, strip and lower-case each part, drop empties. -/
def ActivityName.keyword_list (a : ActivityName) : List String :=
  ((splitByPred (fun c => c = ',') a.keywords.data).map
    (fun kw => lowerStr ⟨trimChars kw⟩)).filter (fun kw => kw ≠ "")

/-- `SuccessIndicator` (models.py).  The `activity_name` field is
referenced by `save_ipmt`/`preview_ipmt` in views.py although the
`models.py` under src/ does not declare it; it is embedded as an
opaque label compared for equality. -/
structure SuccessIndicator where
  id : Nat
  unit : Nat
  code : String
  description : String
  is_active : Bool
  activity_name : String
deriving DecidableEq

/-- `WorkAccomplishmentReport` (models.py).  `date_completed`,
`control_number` and `created_at` are unused by the claims and
omitted; `activity_name` is referenced by views.py/tasks.py though
undeclared in src/'s models.py. -/
structure WorkAccomplishmentReport where
  id : Nat
  request : Option ServiceRequest
  unit : Unit
  assigned_personnel : List User
  date_started : DateLike
  project_name : Option String
  description : String
  status : String
  material_cost : Option Int
  labor_cost : Option Int
  total_cost : Int
  activity_name : String
deriving DecidableEq

/-- `WorkAccomplishmentReport.save` (models.py lines 88-90): recompute
`total_cost = (material_cost or 0) + (labor_cost or 0)` before
persisting; the other fields are stored unchanged. -/
def WorkAccomplishmentReport.save (w : WorkAccomplishmentReport) :
    WorkAccomplishmentReport :=
  { w with total_cost := pyOrZero w.material_cost + pyOrZero w.labor_cost }

/-- `IPMTDraft` (models.py); also the shape of the `IPMT` rows written
by `save_ipmt` in views.py (views.py imports an `IPMT` model whose
declaration is absent from src/; `IPMTDraft` is the declared draft
model with exactly the fields `save_ipmt` reads and writes).
`reports` is the many-to-many link to `WorkAccomplishmentReport`,
held as the list of linked report ids. -/
structure IPMTDraft where
  personnel : Nat
  unit : Nat
  month : String
  indicator : Nat
  accomplishment : String
  remarks : String
  status : String
  reports : List Nat
deriving DecidableEq

/-- The persistent store and external collaborators visible to the
engine: `summarize` is the opaque text-summarization collaborator
(`generate_ipmt_summary(indicator_code, texts)`). -/
structure Env where
  units : List Unit
  users : List User
  indicators : List SuccessIndicator
  wars : List WorkAccomplishmentReport
  ipmt_drafts : List IPMTDraft
  summarize : String → List String → String

/-- C1: for every WorkAccomplishmentReport, after `save` the stored
`total_cost` equals `material_cost + labor_cost` with absent values
counted as 0; the total is recomputed from the (unchanged) cost
fields on each persist. -/
theorem war_save_total_cost_invariant (w : WorkAccomplishmentReport) :
    (WorkAccomplishmentReport.save w).total_cost =
      pyOrZero (WorkAccomplishmentReport.save w).material_cost +
        pyOrZero (WorkAccomplishmentReport.save w).labor_cost := by
  rfl

/- ---------------------------------------------------------------
   Record Normalizer (utils.py, normalize_report)
   --------------------------------------------------------------- -/

/-- The canonical reporting row built by `normalize_report` (the dict
it returns). -/
structure NormalizedRow where
  type : String
  source : String
  requesting_office : String
  description : String
  unit : String
  date : DateLike
  personnel : List String
  status : String
  rating : Option Int
deriving DecidableEq

/-- The runtime argument of `normalize_report`: a `ServiceRequest`, a
`WorkAccomplishmentReport`, or any other object (the `isinstance`
chain has no final `else`, so a third shape falls through). -/
inductive ReportInput where
  | sr (r : ServiceRequest)
  | war (w : WorkAccomplishmentReport)
  | other

/-- `[p.get_full_name() or p.username for p in assigned] if
assigned.exists() else ["Unassigned"]`. -/
def personnelList (assigned : List User) : List String :=
  if assigned.isEmpty then ["Unassigned"]
  else assigned.map User.displayName

/-- Date normalization in the WAR branch of `normalize_report`: a
naive datetime is made aware, a plain date is combined with midnight
and made aware, an aware datetime passes through unchanged. -/
def normalizeDate : DateLike → DateLike
  | .naive d m => .aware d m
  | .justDate d => .aware d 0
  | .aware d m => .aware d m

/-- `normalize_report` (utils.py lines 14-51): polymorphic over the
two supported record shapes; any other input reaches the end of the
function body and returns `None`. -/
def normalize_report : ReportInput → Option NormalizedRow
  | .sr r =>
    some
      { type := "ServiceRequest"
        source := "Live"
        requesting_office :=
          match r.department with
          | some d => d.name
          | none => ""
        description := r.description
        unit :=
          match r.unit with
          | some u => u.name
          | none => ""
        date := r.created_at
        personnel := personnelList r.assigned_personnel
        status := r.status
        rating := r.rating }
  | .war w =>
    some
      { type := "WorkAccomplishmentReport"
        source := if w.request.isSome then "Live" else "Migrated"
        requesting_office :=
          match w.request with
          | some req =>
            match req.department with
            | some d => d.name
            | none => ""
          | none => ""
        description := w.description
        unit :=
          match w.request with
          | some req =>
            match req.unit with
            | some u => u.name
            | none => w.unit.name
          | none => w.unit.name
        date := normalizeDate w.date_started
        personnel := personnelList w.assigned_personnel
        status := pyOrStr w.status "Completed"
        rating := none }
  | .other => none

/- ---------------------------------------------------------------
   Activity Classifier (utils.py, map_activity_name)
   --------------------------------------------------------------- -/

/-- Keyword scan of `map_activity_name`: first activity in catalog
order any of whose keywords occurs in the lower-cased description.
Note the scan runs over the whole catalog (`ActivityName.objects
.all()`), not only active rows. -/
def keywordScan (catalog : List ActivityName) (descLower : String) :
    Option ActivityName :=
  catalog.find? (fun a => a.keyword_list.any (fun kw => strIn kw descLower))

/-- `Miscellaneous` fallback lookup:
`ActivityName.objects.filter(name="Miscellaneous").first()`. -/
def miscFallback (catalog : List ActivityName) : Option ActivityName :=
  catalog.find? (fun a => a.name == "Miscellaneous")

/-- `map_activity_name` (utils.py lines 57-67).  The catalog stands
for `ActivityName.objects.all()` in its stable iteration order; the
result is `none` exactly when the Python function returns `None`. -/
def map_activity_name (catalog : List ActivityName) (description : String) :
    Option ActivityName :=
  if description = "" then miscFallback catalog
  else
    match keywordScan catalog (lowerStr description) with
    | some a => some a
    | none => miscFallback catalog

/- ---------------------------------------------------------------
   Indicator Matcher (utils.py, collect_ipmt_reports)
   --------------------------------------------------------------- -/

/-- One preview row returned by `collect_ipmt_reports`. -/
structure IpmtRow where
  indicator : String
  description : String
  remarks : String
  war_id : Option Nat
deriving DecidableEq

/-- `Unit.objects.get(name__iexact=unit_name)` caught for
`DoesNotExist`: first case-insensitive exact name match.  (Django's
`get` would raise `MultipleObjectsReturned` on several matches; unit
names are treated as unique.) -/
def unitLookup (env : Env) (unit_name : String) : Option Unit :=
  env.units.find? (fun u => iexact u.name unit_name)

/-- `SuccessIndicator.objects.filter(unit=unit, is_active=True)` in
stable store order. -/
def activeIndicatorsFor (env : Env) (u : Unit) : List SuccessIndicator :=
  env.indicators.filter (fun i => i.unit == u.id && i.is_active)

/-- `WorkAccomplishmentReport.objects.filter(unit=unit,
date_started__year=year, date_started__month=month_num)` in stable
store order. -/
def warsForMonth (env : Env) (u : Unit) (year month : Int) :
    List WorkAccomplishmentReport :=
  env.wars.filter (fun w =>
    w.unit.id == u.id && w.date_started.date.year == year &&
      w.date_started.date.month == month)

/-- Condition `personnel_names and "all" not in [p.lower() for p in
personnel_names]` guarding the personnel restriction. -/
def personnelFilterApplies (personnel_names : List String) : Bool :=
  !personnel_names.isEmpty &&
    !(personnel_names.map lowerStr).contains "all"

/-- `wars.filter(assigned_personnel__first_name__in=tokens)`: keep the
reports having some assigned person whose first name (case-sensitive,
as `__in` is exact) is among the requested first-name tokens. -/
def filterWarsByPersonnel (tokens : List String)
    (wars : List WorkAccomplishmentReport) : List WorkAccomplishmentReport :=
  wars.filter (fun w =>
    w.assigned_personnel.any (fun p => tokens.contains p.first_name))

/-- The `for war in wars: ... break` scan of `collect_ipmt_reports`:
first report whose description contains the indicator's description
case-insensitively (`indicator.description.lower() in
(war.description or "").lower()`; the `or ""` guard is the identity
here since `description` is a non-null text field). -/
def findMatchedWar (ind : SuccessIndicator) :
    List WorkAccomplishmentReport → Option WorkAccomplishmentReport
  | [] => none
  | w :: rest =>
    if strIn (lowerStr ind.description) (lowerStr w.description) then some w
    else findMatchedWar ind rest

/-- Remarks prefill: `IPMTDraft.objects.filter(indicator=indicator,
unit=unit, month=f"{year}-{month_num:02d}").first()`, else `""`. -/
def draftRemarks (env : Env) (u : Unit) (year month : Int)
    (ind : SuccessIndicator) : String :=
  match env.ipmt_drafts.find? (fun d =>
      d.indicator == ind.id && d.unit == u.id &&
        d.month == monthKey year month) with
  | some d => d.remarks
  | none => ""

/-- One row of the `collect_ipmt_reports` result for a given indicator
and candidate report list. -/
def mkIpmtRow (env : Env) (u : Unit) (year month : Int)
    (ind : SuccessIndicator) (wars : List WorkAccomplishmentReport) :
    IpmtRow :=
  { indicator := ind.code
    description :=
      match findMatchedWar ind wars with
      | some w => w.description
      | none => ""
    remarks := draftRemarks env u year month ind
    war_id := (findMatchedWar ind wars).map (fun w => w.id) }

/-- Candidate-report resolution of `collect_ipmt_reports` (steps 3-4):
month-filtered unit reports, optionally restricted by requested
personnel; `none` models the uncaught `IndexError` from
`p.split()[0]` on a requested name without tokens. -/
def candidateWars (env : Env) (u : Unit) (year month : Int)
    (personnel_names : List String) : Option (List WorkAccomplishmentReport) :=
  if personnelFilterApplies personnel_names then
    (personnel_names.mapM firstToken).map
      (fun toks => filterWarsByPersonnel toks (warsForMonth env u year month))
  else some (warsForMonth env u year month)

/-- `collect_ipmt_reports` (utils.py lines 78-144): resolve the unit
(case-insensitively; `some []` is the soft "no data yet" return when
the lookup fails), then build one row per active indicator over the
candidate reports. -/
def collect_ipmt_reports (env : Env) (year month : Int)
    (unit_name : String) (personnel_names : List String) :
    Option (List IpmtRow) :=
  match unitLookup env unit_name with
  | none => some []
  | some u =>
    (candidateWars env u year month personnel_names).map (fun wars =>
      (activeIndicatorsFor env u).map
        (fun ind => mkIpmtRow env u year month ind wars))

/- ---------------------------------------------------------------
   Export Builder (utils.py, generate_ipmt_excel)
   --------------------------------------------------------------- -/

/-- `year, month_num = map(int, month_filter.split("-"))`: exactly two
dash-separated parts, each a Python integer literal; unpacking or
`int()` failures raise `ValueError` (`none`). -/
def parseMonthFilter (s : String) : Option (Int × Int) :=
  match (splitByPred (fun c => c = '-') s.data).map (fun part => (⟨part⟩ : String)) with
  | [a, b] =>
    match pyInt a, pyInt b with
    | some y, some m => some (y, m)
    | _, _ => none
  | _ => none

/-- Personnel derivation when none given or "all" requested: the
distinct display names assigned to any report of the month (filtered
by unit when a unit other than "all" is named).  CPython materializes
a `set`, whose iteration order is unspecified; the embedding keeps
first-insertion order. -/
def derivedPersonnel (env : Env) (year month : Int) (unit_name : String) :
    List String :=
  let wars := env.wars.filter (fun w =>
    w.date_started.date.year == year && w.date_started.date.month == month)
  let wars :=
    if unit_name ≠ "" ∧ lowerStr unit_name ≠ "all" then
      wars.filter (fun w => iexact w.unit.name unit_name)
    else wars
  (wars.flatMap (fun w => w.assigned_personnel.map User.displayName)).eraseDups

/-- The personnel list a `generate_ipmt_excel` call iterates over. -/
def resolvedPersonnel (env : Env) (year month : Int) (unit_name : String)
    (personnel_names : List String) : List String :=
  if personnel_names.isEmpty ||
      (personnel_names.map lowerStr).contains "all" then
    derivedPersonnel env year month unit_name
  else personnel_names

/-- The placeholder frame written for a person with an empty matcher
result: `{"indicator": "N/A", "description": "No reports",
"remarks": ""}` (that frame carries no `war_id` column, embedded as
`none`). -/
def placeholderRow : IpmtRow :=
  { indicator := "N/A", description := "No reports", remarks := ""
    war_id := none }

/-- Sheet title: `(person[:30] if len(person) > 30 else person) or
"Unassigned"`. -/
def sheetTitle (person : String) : String :=
  pyOrStr (if person.length > 30 then (⟨person.data.take 30⟩ : String) else person)
    "Unassigned"

/-- `calendar.month_name[month_num]` succeeds for list indices
`-13 ≤ m ≤ 12` (Python negative indexing over the 13-entry list). -/
def monthNameIndexOk (m : Int) : Bool :=
  -13 ≤ m && m ≤ 12

/-- The per-person sheet loop of `generate_ipmt_excel`: one sheet per
person holding the matcher rows or the placeholder; errors model the
uncaught exceptions of the loop body (`IndexError` from name
tokenization or from `calendar.month_name`, duplicate worksheet
names rejected by the Excel writer). -/
def buildSheets (env : Env) (year month : Int) (unit_name : String) :
    List String → List String → Except String (List (String × List IpmtRow))
  | [], _ => .ok []
  | person :: rest, usedTitles =>
    match collect_ipmt_reports env year month unit_name [person] with
    | none => .error "IndexError"
    | some reports =>
      let rows := if reports.isEmpty then [placeholderRow] else reports
      let title := sheetTitle person
      if usedTitles.contains title then .error "DuplicateWorksheetName"
      else if !monthNameIndexOk month then .error "IndexError"
      else
        match buildSheets env year month unit_name rest (title :: usedTitles) with
        | .ok sheets => .ok ((title, rows) :: sheets)
        | .error e => .error e

/-- `generate_ipmt_excel` (utils.py lines 148-203).  The workbook is
abstracted to its list of (sheet title, data rows); the fixed header
annotations and column renaming are presentation only. -/
def generate_ipmt_excel (env : Env) (month_filter : String)
    (unit_name : String) (personnel_names : List String) :
    Except String (List (String × List IpmtRow)) :=
  match parseMonthFilter month_filter with
  | none => .error "Month filter must be in 'YYYY-MM' format."
  | some (year, month) =>
    buildSheets env year month unit_name
      (resolvedPersonnel env year month unit_name personnel_names) []

/- ---------------------------------------------------------------
   Aggregation & Draft Builder (views.py, save_ipmt)
   --------------------------------------------------------------- -/

/-- The `update_or_create` lookup key of `save_ipmt`:
(personnel id, unit id, month string, indicator id). -/
abbrev DraftKey := Nat × Nat × String × Nat

/-- The fields `save_ipmt` writes on a draft: the `defaults`
(`accomplishment`, `remarks`) plus the replaced linked-report set. -/
structure DraftVals where
  accomplishment : String
  remarks : String
  reports : List Nat
deriving DecidableEq

/-- Upsert key of a stored draft. -/
def keyOf (d : IPMTDraft) : DraftKey :=
  (d.personnel, d.unit, d.month, d.indicator)

/-- The written fields of a stored draft. -/
def valsOf (d : IPMTDraft) : DraftVals :=
  ⟨d.accomplishment, d.remarks, d.reports⟩

/-- Effect of `update_or_create(defaults=...)` followed by
`reports.set(wars)` on an existing row: overwrite exactly the written
fields, keep everything else (in particular `status`). -/
def setVals (v : DraftVals) (d : IPMTDraft) : IPMTDraft :=
  { d with accomplishment := v.accomplishment, remarks := v.remarks
           reports := v.reports }

/-- Row created by `update_or_create` when no match exists: key
fields, written fields, and the model's default `status = "draft"`. -/
def mkDraft : DraftKey → DraftVals → IPMTDraft
  | (p, u, m, i), v =>
    { personnel := p, unit := u, month := m, indicator := i
      accomplishment := v.accomplishment, remarks := v.remarks
      status := "draft", reports := v.reports }

/-- Whether a draft with the given key is stored. -/
def hasKey (k : DraftKey) (l : List IPMTDraft) : Bool :=
  l.any (fun d => decide (keyOf d = k))

/-- Update the first stored draft carrying the key (Django's
`update_or_create` resolves the target by `get`, which presumes at
most one match; the store never holds two drafts of one key). -/
def setFirst (k : DraftKey) (v : DraftVals) : List IPMTDraft → List IPMTDraft
  | [] => []
  | d :: t => if keyOf d = k then setVals v d :: t else d :: setFirst k v t

/-- `IPMT.objects.update_or_create(...)` + `ipmt_obj.reports.set(wars)`:
update the stored draft of this key in place, or append a fresh row. -/
def upsert (k : DraftKey) (v : DraftVals) (l : List IPMTDraft) :
    List IPMTDraft :=
  if hasKey k l then setFirst k v l else l ++ [mkDraft k v]

/-- Sequential application of a batch of keyed writes. -/
def applyAll (ps : List (DraftKey × DraftVals)) (l : List IPMTDraft) :
    List IPMTDraft :=
  ps.foldl (fun acc p => upsert p.1 p.2 acc) l

/-- Value of the last write a batch performs on a key, if any. -/
def lastVal : List (DraftKey × DraftVals) → DraftKey → Option DraftVals
  | [], _ => none
  | p :: ps, k =>
    match lastVal ps k with
    | some v => some v
    | none => if p.1 = k then some p.2 else none

/-- One element of the `rows` payload of `save_ipmt`
(`row["indicator"]` is a mandatory key — its absence would raise
`KeyError` — the `.get` fields are nullable). -/
structure IpmtSaveRow where
  indicator : String
  war_ids : List Nat
  description : Option String
  accomplishment : Option String
  remarks : Option String
deriving DecidableEq

/-- Person resolution of `save_ipmt`: first-name `iexact` match on the
first token, else exact-username (`iexact`) match on the whole name. -/
def resolveUser (env : Env) (person_name : String) (tok : String) :
    Option User :=
  match env.users.find? (fun u => iexact u.first_name tok) with
  | some u => some u
  | none => env.users.find? (fun u => iexact u.username person_name)

/-- `SuccessIndicator.objects.filter(unit=unit, code=row["indicator"])
.first()`. -/
def indicatorLookup (env : Env) (u : Unit) (code : String) :
    Option SuccessIndicator :=
  env.indicators.find? (fun i => i.unit == u.id && i.code == code)

/-- `WorkAccomplishmentReport.objects.filter(id__in=war_ids,
assigned_personnel=user, activity_name=indicator.activity_name)`. -/
def warsForRow (env : Env) (user : User) (ind : SuccessIndicator)
    (row : IpmtSaveRow) : List WorkAccomplishmentReport :=
  env.wars.filter (fun w =>
    row.war_ids.contains w.id &&
      w.assigned_personnel.any (fun p => p.id == user.id) &&
      w.activity_name == ind.activity_name)

/-- Accomplishment precedence of `save_ipmt`: explicit row text, else
row "accomplishment", else (when empty and matching reports with
non-empty descriptions exist) the external summary keyed by the
indicator code. -/
def rowAccomplishment (env : Env) (user : User) (ind : SuccessIndicator)
    (row : IpmtSaveRow) : String :=
  let acc0 := pyOrOptStr row.description (pyOrOptStr row.accomplishment "")
  let wars := warsForRow env user ind row
  if acc0 = "" ∧ ¬wars.isEmpty then
    let descs := (wars.map (fun w => w.description)).filter (fun s => s ≠ "")
    if descs = [] then acc0 else env.summarize ind.code descs
  else acc0

/-- Remarks precedence: `row.get("remarks") or accomplishment`. -/
def rowRemarks (env : Env) (user : User) (ind : SuccessIndicator)
    (row : IpmtSaveRow) : String :=
  pyOrOptStr row.remarks (rowAccomplishment env user ind row)

/-- The draft fields one (person, row) pair writes.  They depend only
on the fixed environment and the call's payload, never on the draft
store. -/
def mkVals (env : Env) (user : User) (ind : SuccessIndicator)
    (row : IpmtSaveRow) : DraftVals :=
  { accomplishment := rowAccomplishment env user ind row
    remarks := rowRemarks env user ind row
    reports := (warsForRow env user ind row).map (fun w => w.id) }

/-- The upsert key one (person, row) pair addresses. -/
def draftKeyFor (user : User) (u : Unit) (month : String)
    (ind : SuccessIndicator) : DraftKey :=
  (user.id, u.id, month, ind.id)

/-- Inner `for row in rows` body: unresolvable indicators are skipped
silently, otherwise upsert the draft for (person, unit, month,
indicator) and replace its linked reports. -/
def processRow (env : Env) (u : Unit) (month : String) (user : User)
    (store : List IPMTDraft) (row : IpmtSaveRow) : List IPMTDraft :=
  match indicatorLookup env u row.indicator with
  | none => store
  | some ind =>
    upsert (draftKeyFor user u month ind) (mkVals env user ind row) store

/-- All row writes of one resolved person. -/
def processRows (env : Env) (u : Unit) (month : String) (user : User)
    (rows : List IpmtSaveRow) (store : List IPMTDraft) : List IPMTDraft :=
  rows.foldl (processRow env u month user) store

/-- Outer `for person_name in personnel_names` loop: a name without
tokens raises `IndexError` (uncaught); unresolvable persons are
skipped silently. -/
def loopPersons (env : Env) (u : Unit) (month : String)
    (rows : List IpmtSaveRow) :
    List String → List IPMTDraft → Except String (List IPMTDraft)
  | [], store => .ok store
  | person :: rest, store =>
    match firstToken person with
    | none => .error "IndexError"
    | some tok =>
      match resolveUser env person tok with
      | none => loopPersons env u month rows rest store
      | some user =>
        loopPersons env u month rows rest
          (processRows env u month user rows store)

/-- `save_ipmt` (views.py lines 214-282), from payload decoding on:
validate presence of the four payload fields, resolve the unit
case-insensitively (explicit NotFound error), then run the
person×row upsert loop over the draft store. -/
def save_ipmt (env : Env) (month unit_name : String)
    (personnel_names : List String) (rows : List IpmtSaveRow)
    (store : List IPMTDraft) : Except String (List IPMTDraft) :=
  if month = "" ∨ unit_name = "" ∨ personnel_names = [] ∨ rows = [] then
    .error "Missing required data"
  else
    match unitLookup env unit_name with
    | none => .error ("Unit '" ++ unit_name ++ "' not found")
    | some u => loopPersons env u month rows personnel_names store

/-- The (key, written-fields) batch a `save_ipmt` call performs for
one resolved person, in row order. -/
def rowPairs (env : Env) (u : Unit) (month : String) (user : User)
    (rows : List IpmtSaveRow) : List (DraftKey × DraftVals) :=
  rows.filterMap (fun row =>
    (indicatorLookup env u row.indicator).map
      (fun ind => (draftKeyFor user u month ind, mkVals env user ind row)))

/-- The full (key, written-fields) batch of a `save_ipmt` call, person
by person; `.error` mirrors the loop's uncaught `IndexError`. -/
def personPairs (env : Env) (u : Unit) (month : String)
    (rows : List IpmtSaveRow) :
    List String → Except String (List (DraftKey × DraftVals))
  | [] => .ok []
  | person :: rest =>
    match firstToken person with
    | none => .error "IndexError"
    | some tok =>
      match resolveUser env person tok with
      | none => personPairs env u month rows rest
      | some user =>
        match personPairs env u month rows rest with
        | .ok ps => .ok (rowPairs env u month user rows ++ ps)
        | .error e => .error e

/- ---------------------------------------------------------------
   Shared sample stores used by concrete witnesses
   --------------------------------------------------------------- -/

/-- An empty store with a trivial summarizer. -/
def emptyEnv : Env := ⟨[], [], [], [], [], fun _ _ => ""⟩

/-- Sample unit. -/
def sampleUnit : Unit := ⟨1, "Engineering"⟩

/-- Sample personnel record. -/
def sampleUser : User := ⟨1, "juan", "Juan", "Dela Cruz"⟩

/-- Sample active success indicator of the sample unit. -/
def sampleIndicator : SuccessIndicator :=
  ⟨1, 1, "CF1", "road repair", true, "Road Maintenance"⟩

/-- Sample accomplishment report of the sample unit, September 2025. -/
def sampleWar : WorkAccomplishmentReport :=
  ⟨1, none, sampleUnit, [sampleUser], .justDate ⟨2025, 9, 10⟩, none,
    "Road repair on Main St", "Completed", none, none, 0, "Road Maintenance"⟩

/-- Sample populated store. -/
def sampleEnv : Env :=
  ⟨[sampleUnit], [sampleUser], [sampleIndicator], [sampleWar], [],
    fun _ _ => "SUMMARY"⟩

/- ---------------------------------------------------------------
   C10 — Record Normalizer partiality
   --------------------------------------------------------------- -/

/-- The personnel list of a normalized row is never empty: the
`["Unassigned"]` fallback covers the unassigned case. -/
theorem personnelList_ne_nil (l : List User) : personnelList l ≠ [] := by
  cases l with
  | nil => simp [personnelList]
  | cons u t => simp [personnelList]

/-- C10: `normalize_report` is partial over input kinds — a third
record shape falls through to an absent result, while each of the two
supported variants always yields a row whose personnel list is
non-empty. -/
theorem normalize_report_partial_over_kinds :
    normalize_report .other = none ∧
    (∀ r : ServiceRequest, ∃ row,
      normalize_report (.sr r) = some row ∧ row.personnel ≠ []) ∧
    (∀ w : WorkAccomplishmentReport, ∃ row,
      normalize_report (.war w) = some row ∧ row.personnel ≠ []) := by
  refine ⟨rfl, fun r => ⟨_, rfl, ?_⟩, fun w => ⟨_, rfl, ?_⟩⟩
  · exact personnelList_ne_nil r.assigned_personnel
  · exact personnelList_ne_nil w.assigned_personnel

/- ---------------------------------------------------------------
   C4 — Classifier fallback behaviour
   --------------------------------------------------------------- -/

/-- C4 counterexample: with a catalog holding no Activity named
"Miscellaneous", classifying the empty text yields an absent value
(`None`) — the code does not fail with NotConfigured and does yield a
null result, contradicting the claim. -/
theorem map_activity_name_no_fallback_counterexample :
    map_activity_name [⟨"Repairs", "road", true⟩] "" = none := by
  decide

/-- C4 amended: when the text is empty or no catalog keyword occurs in
the lower-cased text, `map_activity_name` returns the first Activity
named "Miscellaneous" as an optional value — which is absent (`none`)
rather than an error when no such Activity exists. -/
theorem map_activity_name_fallback (catalog : List ActivityName)
    (text : String)
    (h : text = "" ∨ keywordScan catalog (lowerStr text) = none) :
    map_activity_name catalog text = miscFallback catalog := by
  unfold map_activity_name
  rcases h with h | h
  · simp [h]
  · by_cases ht : text = ""
    · simp [ht]
    · simp [ht, h]

/-- C4 witness: a no-keyword text on a catalog that does hold the
fallback resolves to the "Miscellaneous" Activity. -/
theorem map_activity_name_fallback_witness :
    map_activity_name [⟨"Repairs", "road", true⟩, ⟨"Miscellaneous", "", true⟩]
        "hello world" =
      some ⟨"Miscellaneous", "", true⟩ :=
  (map_activity_name_fallback
      [⟨"Repairs", "road", true⟩, ⟨"Miscellaneous", "", true⟩] "hello world"
      (Or.inr (by decide))).trans (by decide)

/- ---------------------------------------------------------------
   C5 — Classifier and the active flag
   --------------------------------------------------------------- -/

/-- C5 counterexample: the keyword scan runs over
`ActivityName.objects.all()`, so an Activity with `is_active = false`
is returned when one of its keywords occurs in the lower-cased text —
contradicting the claim that inactive Activities are never returned. -/
theorem map_activity_name_inactive_match_counterexample :
    map_activity_name [⟨"Repairs", "road", false⟩] "Road work" =
        some ⟨"Repairs", "road", false⟩ ∧
      (⟨"Repairs", "road", false⟩ : ActivityName).is_active = false := by
  exact ⟨by decide, rfl⟩

/-- Auxiliary: `find?` over a mapped list, for predicates the mapping
does not disturb. -/
theorem find?_map_of_pred {α β : Type} (f : α → β) (p : β → Bool)
    (q : α → Bool) (hpq : ∀ a, p (f a) = q a) (l : List α) :
    (l.map f).find? p = (l.find? q).map f := by
  induction l with
  | nil => rfl
  | cons a t ih =>
    simp only [List.map_cons]
    rw [List.find?_cons, List.find?_cons, hpq a]
    cases q a
    · simpa using ih
    · rfl

/-- C5 amended: `map_activity_name` never reads the active flag — its
result is invariant (up to the same flag rewrite) under arbitrary
reassignment of every `is_active` flag, so inactive Activities
participate in keyword matching exactly like active ones. -/
theorem map_activity_name_ignores_is_active (catalog : List ActivityName)
    (text : String) (g : ActivityName → Bool) :
    map_activity_name (catalog.map (fun a => { a with is_active := g a })) text
      = (map_activity_name catalog text).map
          (fun a => { a with is_active := g a }) := by
  have hscan : keywordScan (catalog.map (fun a => { a with is_active := g a }))
      (lowerStr text) =
      (keywordScan catalog (lowerStr text)).map
        (fun a => { a with is_active := g a }) :=
    find?_map_of_pred _ _ _ (fun a => rfl) catalog
  have hmisc : miscFallback (catalog.map (fun a => { a with is_active := g a }))
      = (miscFallback catalog).map (fun a => { a with is_active := g a }) :=
    find?_map_of_pred _ _ _ (fun a => rfl) catalog
  unfold map_activity_name
  by_cases ht : text = ""
  · simp [ht, hmisc]
  · simp only [ht, if_false]
    rw [hscan]
    cases keywordScan catalog (lowerStr text)
    · simpa using hmisc
    · rfl

/- ---------------------------------------------------------------
   C6 — Matcher on an unknown unit
   --------------------------------------------------------------- -/

/-- C6: when no stored unit matches the requested name under
case-insensitive exact comparison, `collect_ipmt_reports` returns the
empty list (a soft "no data yet" result, not an error). -/
theorem collect_unknown_unit_returns_empty (env : Env) (year month : Int)
    (unit_name : String) (personnel_names : List String)
    (h : ∀ u ∈ env.units, iexact u.name unit_name = false) :
    collect_ipmt_reports env year month unit_name personnel_names =
      some [] := by
  unfold collect_ipmt_reports unitLookup
  rw [List.find?_eq_none.mpr (fun u hu => by simp [h u hu])]

/-- C6 witness: a store holding only a differently-named unit yields
the empty result for "Engineering". -/
theorem collect_unknown_unit_returns_empty_witness :
    collect_ipmt_reports ⟨[⟨1, "Motorpool"⟩], [], [], [], [], fun _ _ => ""⟩
        2025 9 "Engineering" ["Juan"] = some [] :=
  collect_unknown_unit_returns_empty _ 2025 9 "Engineering" ["Juan"]
    (by decide)

/- ---------------------------------------------------------------
   C3 — Matcher: first match wins, at most one per indicator
   --------------------------------------------------------------- -/

/-- The `for war in wars: ... break` scan selects exactly the first
candidate (in scan order) whose description contains the indicator's
description case-insensitively. -/
theorem findMatchedWar_eq_find? (ind : SuccessIndicator)
    (ws : List WorkAccomplishmentReport) :
    findMatchedWar ind ws =
      ws.find? (fun w =>
        strIn (lowerStr ind.description) (lowerStr w.description)) := by
  induction ws with
  | nil => rfl
  | cons w t ih =>
    rw [List.find?_cons]
    unfold findMatchedWar
    cases strIn (lowerStr ind.description) (lowerStr w.description)
    · simpa using ih
    · rfl

/-- C3: every row returned by `collect_ipmt_reports` belongs to an
active indicator of the resolved unit and carries as its (at most
one) matched record id exactly the id of the first candidate record
in scan order whose description contains the indicator's description
as a case-insensitive substring. -/
theorem collect_ipmt_first_match_wins (env : Env) (year month : Int)
    (unit_name : String) (personnel_names : List String)
    (rows : List IpmtRow) (row : IpmtRow)
    (hc : collect_ipmt_reports env year month unit_name personnel_names =
      some rows)
    (hr : row ∈ rows) :
    ∃ u wars ind,
      unitLookup env unit_name = some u ∧
      candidateWars env u year month personnel_names = some wars ∧
      ind ∈ activeIndicatorsFor env u ∧
      row.indicator = ind.code ∧
      row.war_id =
        (wars.find? (fun w =>
          strIn (lowerStr ind.description) (lowerStr w.description))).map
          (fun w => w.id) := by
  unfold collect_ipmt_reports at hc
  cases hu : unitLookup env unit_name with
  | none =>
    rw [hu] at hc
    cases hc
    simp at hr
  | some u =>
    rw [hu] at hc
    dsimp only [] at hc
    cases hw : candidateWars env u year month personnel_names with
    | none => rw [hw] at hc; cases hc
    | some wars =>
      rw [hw] at hc
      dsimp only [Option.map] at hc
      cases hc
      obtain ⟨ind, hind, hrow⟩ := List.mem_map.mp hr
      refine ⟨u, wars, ind, rfl, hw, hind, ?_, ?_⟩
      · rw [← hrow]; rfl
      · rw [← hrow]
        show (findMatchedWar ind wars).map (fun w => w.id) = _
        rw [findMatchedWar_eq_find?]

/-- C3 witness: in the sample store the matcher pairs indicator CF1
with the sample report (first match), and that is the only match
carried by the row. -/
theorem collect_ipmt_first_match_wins_witness :
    ∃ u wars ind,
      unitLookup sampleEnv "engineering" = some u ∧
      candidateWars sampleEnv u 2025 9 ["Juan Dela Cruz"] = some wars ∧
      ind ∈ activeIndicatorsFor sampleEnv u ∧
      (⟨"CF1", "Road repair on Main St", "", some 1⟩ : IpmtRow).indicator =
        ind.code ∧
      (⟨"CF1", "Road repair on Main St", "", some 1⟩ : IpmtRow).war_id =
        (wars.find? (fun w =>
          strIn (lowerStr ind.description) (lowerStr w.description))).map
          (fun w => w.id) :=
  collect_ipmt_first_match_wins sampleEnv 2025 9 "engineering"
    ["Juan Dela Cruz"] [⟨"CF1", "Road repair on Main St", "", some 1⟩]
    ⟨"CF1", "Road repair on Main St", "", some 1⟩ (by decide) (by decide)

/- ---------------------------------------------------------------
   C7 — Export month-filter parsing
   --------------------------------------------------------------- -/

/-- C7 counterexample: `"13-99"` is not a valid year-month, yet the
parse succeeds (two dash-separated integers, no range check) and the
export call returns a workbook instead of failing with the format
error — contradicting the claim. -/
theorem generate_ipmt_month_13_99_counterexample :
    parseMonthFilter "13-99" = some (13, 99) ∧
      generate_ipmt_excel emptyEnv "13-99" "all" [] = .ok [] := by
  exact ⟨by decide, rfl⟩

/-- C7 amended: the month filter is rejected (with the user-facing
format error, before any workbook is built) exactly on the strings
whose dash-split parts fail Python's `int` parsing or do not number
two; numeric range is not validated, so "13-99" is accepted and
parsed as year 13, month 99. -/
theorem generate_ipmt_invalid_month_error (env : Env)
    (month_filter unit_name : String) (personnel_names : List String)
    (h : parseMonthFilter month_filter = none) :
    generate_ipmt_excel env month_filter unit_name personnel_names =
      .error "Month filter must be in 'YYYY-MM' format." := by
  unfold generate_ipmt_excel
  rw [h]

/-- C7 witness: a three-part string is rejected with the format error
and no workbook is produced. -/
theorem generate_ipmt_invalid_month_error_witness :
    parseMonthFilter "2025-09-01" = none ∧
      generate_ipmt_excel emptyEnv "2025-09-01" "all" [] =
        .error "Month filter must be in 'YYYY-MM' format." :=
  ⟨by decide,
    generate_ipmt_invalid_month_error emptyEnv "2025-09-01" "all" []
      (by decide)⟩

/- ---------------------------------------------------------------
   C8 — Export placeholder sheet for empty matcher results
   --------------------------------------------------------------- -/

/-- Sheet-loop invariant for C8: when the loop completes, each
requested person whose matcher result is empty contributes a sheet
holding exactly the placeholder row. -/
theorem buildSheets_mem_placeholder (env : Env) (year month : Int)
    (unit_name : String) (person : String) :
    ∀ (names used : List String) (sheets : List (String × List IpmtRow)),
      buildSheets env year month unit_name names used = .ok sheets →
      person ∈ names →
      collect_ipmt_reports env year month unit_name [person] = some [] →
      (sheetTitle person, [placeholderRow]) ∈ sheets := by
  intro names
  induction names with
  | nil =>
    intro used sheets _ hmem _
    simp at hmem
  | cons p rest ih =>
    intro used sheets hb hmem hcol
    rcases List.mem_cons.mp hmem with heq | hmem'
    · subst heq
      rw [show buildSheets env year month unit_name (person :: rest) used =
          (match collect_ipmt_reports env year month unit_name [person] with
           | none => .error "IndexError"
           | some reports =>
             let rows := if reports.isEmpty then [placeholderRow] else reports
             let title := sheetTitle person
             if used.contains title then .error "DuplicateWorksheetName"
             else if !monthNameIndexOk month then .error "IndexError"
             else
               match buildSheets env year month unit_name rest
                   (title :: used) with
               | .ok sheets => .ok ((title, rows) :: sheets)
               | .error e => .error e) from rfl] at hb
      rw [hcol] at hb
      simp only [List.isEmpty_nil, if_true] at hb
      split at hb
      · cases hb
      · split at hb
        · cases hb
        · split at hb
          · cases hb
            exact List.mem_cons_self _ _
          · cases hb
    · rw [show buildSheets env year month unit_name (p :: rest) used =
          (match collect_ipmt_reports env year month unit_name [p] with
           | none => .error "IndexError"
           | some reports =>
             let rows := if reports.isEmpty then [placeholderRow] else reports
             let title := sheetTitle p
             if used.contains title then .error "DuplicateWorksheetName"
             else if !monthNameIndexOk month then .error "IndexError"
             else
               match buildSheets env year month unit_name rest
                   (title :: used) with
               | .ok sheets => .ok ((title, rows) :: sheets)
               | .error e => .error e) from rfl] at hb
      cases hc : collect_ipmt_reports env year month unit_name [p] with
      | none => rw [hc] at hb; cases hb
      | some reports =>
        rw [hc] at hb
        simp only [] at hb
        split at hb
        · cases hb
        · split at hb
          · cases hb
          · split at hb
            · cases hb
              exact List.mem_cons_of_mem _ (ih _ _ (by assumption) hmem' hcol)
            · cases hb

/-- C8: in a produced workbook, every person of the export's resolved
personnel list whose Indicator Matcher result is empty gets a sheet
holding exactly the single placeholder row
("N/A", "No reports", ""). -/
theorem export_empty_result_placeholder_sheet (env : Env)
    (month_filter unit_name : String) (personnel_names : List String)
    (year month : Int) (sheets : List (String × List IpmtRow))
    (person : String)
    (hp : parseMonthFilter month_filter = some (year, month))
    (hg : generate_ipmt_excel env month_filter unit_name personnel_names =
      .ok sheets)
    (hmem : person ∈ resolvedPersonnel env year month unit_name
      personnel_names)
    (hcol : collect_ipmt_reports env year month unit_name [person] =
      some []) :
    (sheetTitle person, [placeholderRow]) ∈ sheets := by
  unfold generate_ipmt_excel at hg
  rw [hp] at hg
  exact buildSheets_mem_placeholder env year month unit_name person _ _ _
    hg hmem hcol

/-- C8 witness: exporting for the single person "Alice" over an empty
store produces exactly her placeholder sheet. -/
theorem export_empty_result_placeholder_sheet_witness :
    (sheetTitle "Alice", [placeholderRow]) ∈
      [(("Alice" : String), [placeholderRow])] :=
  export_empty_result_placeholder_sheet emptyEnv "2025-09" "all" ["Alice"]
    2025 9 [(("Alice" : String), [placeholderRow])] "Alice" (by decide)
    rfl (by decide) (by decide)

/- ---------------------------------------------------------------
   Upsert algebra for C2 / C9
   --------------------------------------------------------------- -/

/-- The stored keys of a draft store. -/
def keysOf (l : List IPMTDraft) : List DraftKey :=
  l.map keyOf

/-- The written fields a row's matcher lookup reads back. -/
def firstVals (k : DraftKey) (l : List IPMTDraft) : Option DraftVals :=
  (l.find? (fun d => decide (keyOf d = k))).map valsOf

theorem keyOf_setVals (v : DraftVals) (d : IPMTDraft) :
    keyOf (setVals v d) = keyOf d := rfl

theorem valsOf_setVals (v : DraftVals) (d : IPMTDraft) :
    valsOf (setVals v d) = v := rfl

theorem setVals_setVals (v w : DraftVals) (d : IPMTDraft) :
    setVals v (setVals w d) = setVals v d := rfl

theorem setVals_valsOf (d : IPMTDraft) : setVals (valsOf d) d = d := by
  cases d
  rfl

theorem keyOf_mkDraft (k : DraftKey) (v : DraftVals) :
    keyOf (mkDraft k v) = k := by
  obtain ⟨p, u, m, i⟩ := k
  rfl

theorem valsOf_mkDraft (k : DraftKey) (v : DraftVals) :
    valsOf (mkDraft k v) = v := by
  obtain ⟨p, u, m, i⟩ := k
  rfl

theorem setVals_mkDraft (k : DraftKey) (v w : DraftVals) :
    setVals v (mkDraft k w) = mkDraft k v := by
  obtain ⟨p, u, m, i⟩ := k
  rfl

theorem hasKey_cons (k : DraftKey) (d : IPMTDraft) (t : List IPMTDraft) :
    hasKey k (d :: t) = (decide (keyOf d = k) || hasKey k t) := rfl

theorem hasKey_iff_mem_keysOf (k : DraftKey) (l : List IPMTDraft) :
    hasKey k l = true ↔ k ∈ keysOf l := by
  simp [hasKey, keysOf, List.any_eq_true, List.mem_map]

theorem setFirst_cons (k : DraftKey) (v : DraftVals) (d : IPMTDraft)
    (t : List IPMTDraft) :
    setFirst k v (d :: t) =
      if keyOf d = k then setVals v d :: t else d :: setFirst k v t := rfl

theorem upsert_of_hasKey {k : DraftKey} (v : DraftVals) {l : List IPMTDraft}
    (h : hasKey k l = true) : upsert k v l = setFirst k v l := by
  unfold upsert
  rw [if_pos h]

theorem upsert_of_not_hasKey {k : DraftKey} (v : DraftVals)
    {l : List IPMTDraft} (h : hasKey k l = false) :
    upsert k v l = l ++ [mkDraft k v] := by
  unfold upsert
  rw [if_neg (by rw [h]; exact Bool.false_ne_true)]

theorem hasKey_cons_false {k : DraftKey} {d : IPMTDraft}
    {t : List IPMTDraft} (h : hasKey k (d :: t) = false) :
    ¬(keyOf d = k) ∧ hasKey k t = false := by
  rw [hasKey_cons] at h
  simp only [Bool.or_eq_false_iff, decide_eq_false_iff_not] at h
  exact h

theorem hasKey_cons_tail {k : DraftKey} {d : IPMTDraft} {t : List IPMTDraft}
    (h : hasKey k (d :: t) = true) (hd : ¬(keyOf d = k)) :
    hasKey k t = true := by
  rw [hasKey_cons] at h
  simpa [hd] using h

theorem map_keyOf_setFirst (k : DraftKey) (v : DraftVals) :
    ∀ l : List IPMTDraft, (setFirst k v l).map keyOf = l.map keyOf := by
  intro l
  induction l with
  | nil => rfl
  | cons d t ih =>
    rw [setFirst_cons]
    by_cases hd : keyOf d = k
    · rw [if_pos hd]
      simp [keyOf_setVals]
    · rw [if_neg hd]
      simp [ih]

theorem keysOf_setFirst (k : DraftKey) (v : DraftVals) (l : List IPMTDraft) :
    keysOf (setFirst k v l) = keysOf l :=
  map_keyOf_setFirst k v l

theorem hasKey_setFirst (k k' : DraftKey) (v : DraftVals) :
    ∀ l : List IPMTDraft, hasKey k' (setFirst k v l) = hasKey k' l := by
  intro l
  induction l with
  | nil => rfl
  | cons d t ih =>
    rw [setFirst_cons]
    by_cases hd : keyOf d = k
    · rw [if_pos hd, hasKey_cons, hasKey_cons, keyOf_setVals]
    · rw [if_neg hd, hasKey_cons, hasKey_cons, ih]

theorem hasKey_append_single (k k' : DraftKey) (v : DraftVals)
    (l : List IPMTDraft) :
    hasKey k' (l ++ [mkDraft k v]) = (hasKey k' l || decide (k = k')) := by
  unfold hasKey
  rw [List.any_append]
  simp [keyOf_mkDraft]

theorem firstVals_cons (k : DraftKey) (d : IPMTDraft) (t : List IPMTDraft) :
    firstVals k (d :: t) =
      if keyOf d = k then some (valsOf d) else firstVals k t := by
  unfold firstVals
  rw [List.find?_cons]
  by_cases hd : keyOf d = k
  · simp [hd]
  · simp [hd]

theorem firstVals_setFirst_self (k : DraftKey) (v : DraftVals) :
    ∀ l : List IPMTDraft, hasKey k l = true →
      firstVals k (setFirst k v l) = some v := by
  intro l
  induction l with
  | nil => intro h; cases h
  | cons d t ih =>
    intro h
    rw [setFirst_cons]
    by_cases hd : keyOf d = k
    · rw [if_pos hd, firstVals_cons,
        if_pos (show keyOf (setVals v d) = k from (keyOf_setVals v d).trans hd),
        valsOf_setVals]
    · rw [if_neg hd, firstVals_cons, if_neg hd]
      exact ih (hasKey_cons_tail h hd)

theorem firstVals_append_mk_self (k : DraftKey) (v : DraftVals) :
    ∀ l : List IPMTDraft, hasKey k l = false →
      firstVals k (l ++ [mkDraft k v]) = some v := by
  intro l
  induction l with
  | nil =>
    intro _
    rw [List.nil_append, firstVals_cons, if_pos (keyOf_mkDraft k v),
      valsOf_mkDraft]
  | cons d t ih =>
    intro h
    obtain ⟨hd, ht⟩ := hasKey_cons_false h
    rw [List.cons_append, firstVals_cons, if_neg hd]
    exact ih ht

theorem firstVals_upsert_self (k : DraftKey) (v : DraftVals)
    (l : List IPMTDraft) : firstVals k (upsert k v l) = some v := by
  cases h : hasKey k l
  · rw [upsert_of_not_hasKey v h]
    exact firstVals_append_mk_self k v l h
  · rw [upsert_of_hasKey v h]
    exact firstVals_setFirst_self k v l h

theorem firstVals_setFirst_ne (k k' : DraftKey) (v : DraftVals)
    (hne : k ≠ k') : ∀ l : List IPMTDraft,
      firstVals k (setFirst k' v l) = firstVals k l := by
  intro l
  induction l with
  | nil => rfl
  | cons d t ih =>
    rw [setFirst_cons]
    by_cases hd : keyOf d = k'
    · have hdk : ¬(keyOf d = k) := by
        rw [hd]
        exact fun h => hne h.symm
      rw [if_pos hd, firstVals_cons,
        if_neg (show ¬(keyOf (setVals v d) = k) from
          (keyOf_setVals v d).symm ▸ hdk),
        firstVals_cons, if_neg hdk]
    · rw [if_neg hd, firstVals_cons, firstVals_cons, ih]

theorem firstVals_append_ne (k : DraftKey) (e : IPMTDraft)
    (he : ¬(keyOf e = k)) : ∀ l : List IPMTDraft,
      firstVals k (l ++ [e]) = firstVals k l := by
  intro l
  induction l with
  | nil =>
    rw [List.nil_append, firstVals_cons, if_neg he]
  | cons d t ih =>
    rw [List.cons_append, firstVals_cons, firstVals_cons, ih]

theorem setFirst_of_firstVals (k : DraftKey) (v : DraftVals) :
    ∀ l : List IPMTDraft, firstVals k l = some v → setFirst k v l = l := by
  intro l
  induction l with
  | nil => intro h; cases h
  | cons d t ih =>
    intro h
    rw [firstVals_cons] at h
    rw [setFirst_cons]
    by_cases hd : keyOf d = k
    · rw [if_pos hd] at h
      rw [if_pos hd]
      have hv : valsOf d = v := by
        injection h
      rw [← hv, setVals_valsOf]
    · rw [if_neg hd] at h
      rw [if_neg hd, ih h]

theorem setFirst_setFirst_same (k : DraftKey) (v w : DraftVals) :
    ∀ l : List IPMTDraft,
      setFirst k w (setFirst k v l) = setFirst k w l := by
  intro l
  induction l with
  | nil => rfl
  | cons d t ih =>
    by_cases hd : keyOf d = k
    · rw [setFirst_cons, if_pos hd, setFirst_cons,
        if_pos ((keyOf_setVals v d).trans hd), setVals_setVals,
        setFirst_cons, if_pos hd]
    · rw [setFirst_cons, if_neg hd, setFirst_cons, if_neg hd, ih,
        setFirst_cons, if_neg hd]

theorem setFirst_comm (k k' : DraftKey) (v w : DraftVals) (hne : k ≠ k') :
    ∀ l : List IPMTDraft,
      setFirst k v (setFirst k' w l) = setFirst k' w (setFirst k v l) := by
  intro l
  induction l with
  | nil => rfl
  | cons d t ih =>
    by_cases hd : keyOf d = k
    · have hd' : ¬(keyOf d = k') := by
        rw [hd]
        exact hne
      rw [setFirst_cons, if_neg hd', setFirst_cons, if_pos hd,
        setFirst_cons, if_pos hd, setFirst_cons,
        if_neg (show ¬(keyOf (setVals v d) = k') from
          (keyOf_setVals v d).symm ▸ hd')]
    · by_cases hd' : keyOf d = k'
      · rw [setFirst_cons, if_pos hd', setFirst_cons,
          if_neg (show ¬(keyOf (setVals w d) = k) from
            (keyOf_setVals w d).symm ▸ hd),
          setFirst_cons, if_neg hd, setFirst_cons, if_pos hd']
      · rw [setFirst_cons, if_neg hd', setFirst_cons, if_neg hd, ih,
          setFirst_cons, if_neg hd, setFirst_cons, if_neg hd']

theorem setFirst_append_left (k : DraftKey) (v : DraftVals) :
    ∀ (l l' : List IPMTDraft), hasKey k l = true →
      setFirst k v (l ++ l') = setFirst k v l ++ l' := by
  intro l
  induction l with
  | nil => intro l' h; cases h
  | cons d t ih =>
    intro l' h
    rw [List.cons_append, setFirst_cons, setFirst_cons]
    by_cases hd : keyOf d = k
    · rw [if_pos hd, if_pos hd, List.cons_append]
    · rw [if_neg hd, if_neg hd, ih l' (hasKey_cons_tail h hd),
        List.cons_append]

theorem hasKey_upsert_self (k : DraftKey) (v : DraftVals)
    (l : List IPMTDraft) : hasKey k (upsert k v l) = true := by
  cases h : hasKey k l
  · rw [upsert_of_not_hasKey v h, hasKey_append_single]
    simp
  · rw [upsert_of_hasKey v h, hasKey_setFirst]
    exact h

theorem hasKey_upsert_mono (k k' : DraftKey) (v : DraftVals)
    (l : List IPMTDraft) (h : hasKey k l = true) :
    hasKey k (upsert k' v l) = true := by
  cases h' : hasKey k' l
  · rw [upsert_of_not_hasKey v h', hasKey_append_single, h]
    rfl
  · rw [upsert_of_hasKey v h', hasKey_setFirst]
    exact h

theorem applyAll_cons (p : DraftKey × DraftVals)
    (ps : List (DraftKey × DraftVals)) (l : List IPMTDraft) :
    applyAll (p :: ps) l = applyAll ps (upsert p.1 p.2 l) := rfl

theorem applyAll_append (ps qs : List (DraftKey × DraftVals))
    (l : List IPMTDraft) :
    applyAll (ps ++ qs) l = applyAll qs (applyAll ps l) := by
  unfold applyAll
  rw [List.foldl_append]

theorem hasKey_applyAll_mono (k : DraftKey) :
    ∀ (ps : List (DraftKey × DraftVals)) (l : List IPMTDraft),
      hasKey k l = true → hasKey k (applyAll ps l) = true := by
  intro ps
  induction ps with
  | nil => intro l h; exact h
  | cons q ps ih =>
    intro l h
    rw [applyAll_cons]
    exact ih _ (hasKey_upsert_mono k q.1 q.2 l h)

theorem firstVals_upsert_ne (k k' : DraftKey) (v : DraftVals)
    (l : List IPMTDraft) (hne : k ≠ k') :
    firstVals k (upsert k' v l) = firstVals k l := by
  cases h : hasKey k' l
  · rw [upsert_of_not_hasKey v h]
    exact firstVals_append_ne k _
      (by rw [keyOf_mkDraft]; exact fun he => hne he.symm) l
  · rw [upsert_of_hasKey v h]
    exact firstVals_setFirst_ne k k' v hne l

theorem firstVals_applyAll_keyFree (k : DraftKey) :
    ∀ (ps : List (DraftKey × DraftVals)) (l : List IPMTDraft),
      (∀ p ∈ ps, p.1 ≠ k) →
      firstVals k (applyAll ps l) = firstVals k l := by
  intro ps
  induction ps with
  | nil => intro l _; rfl
  | cons q ps ih =>
    intro l hf
    rw [applyAll_cons,
      ih _ (fun p hp => hf p (List.mem_cons_of_mem q hp)),
      firstVals_upsert_ne k q.1 q.2 l
        (fun h => hf q (List.mem_cons_self q ps) h.symm)]

theorem applyAll_setFirst_absorb (k : DraftKey) (v : DraftVals) :
    ∀ (ps : List (DraftKey × DraftVals)) (l : List IPMTDraft),
      hasKey k l = true →
      ((∃ p ∈ ps, p.1 = k) ∨ firstVals k l = some v) →
      applyAll ps (setFirst k v l) = applyAll ps l := by
  intro ps
  induction ps with
  | nil =>
    intro l _ hor
    rcases hor with ⟨p, hp, _⟩ | hv
    · exact absurd hp (List.not_mem_nil p)
    · exact setFirst_of_firstVals k v l hv
  | cons q ps ih =>
    intro l hk hor
    rw [applyAll_cons, applyAll_cons]
    by_cases hq : q.1 = k
    · have hkq : hasKey q.1 l = true := by rw [hq]; exact hk
      have h1 : upsert q.1 q.2 (setFirst k v l)
          = setFirst q.1 q.2 l := by
        rw [upsert_of_hasKey q.2 (by rw [hasKey_setFirst]; exact hkq), hq,
          setFirst_setFirst_same]
      rw [h1, upsert_of_hasKey q.2 hkq]
    · by_cases hkq : hasKey q.1 l = true
      · have h1 : upsert q.1 q.2 (setFirst k v l)
            = setFirst k v (setFirst q.1 q.2 l) := by
          rw [upsert_of_hasKey q.2 (by rw [hasKey_setFirst]; exact hkq)]
          exact (setFirst_comm k q.1 v q.2 (fun h => hq h.symm) l).symm
        rw [h1, upsert_of_hasKey q.2 hkq]
        apply ih
        · rw [hasKey_setFirst]
          exact hk
        · rcases hor with ⟨p, hp, hpk⟩ | hv
          · rcases List.mem_cons.mp hp with rfl | hp'
            · exact absurd hpk hq
            · exact Or.inl ⟨p, hp', hpk⟩
          · refine Or.inr ?_
            rw [firstVals_setFirst_ne k q.1 q.2 (fun h => hq h.symm)]
            exact hv
      · have hkq' : hasKey q.1 l = false := by
          cases hb : hasKey q.1 l
          · rfl
          · exact absurd hb hkq
        have h1 : upsert q.1 q.2 (setFirst k v l)
            = setFirst k v (l ++ [mkDraft q.1 q.2]) := by
          rw [upsert_of_not_hasKey q.2 (by rw [hasKey_setFirst]; exact hkq')]
          exact (setFirst_append_left k v l [mkDraft q.1 q.2] hk).symm
        rw [h1, upsert_of_not_hasKey q.2 hkq']
        apply ih
        · rw [hasKey_append_single, hk]
          rfl
        · rcases hor with ⟨p, hp, hpk⟩ | hv
          · rcases List.mem_cons.mp hp with rfl | hp'
            · exact absurd hpk hq
            · exact Or.inl ⟨p, hp', hpk⟩
          · refine Or.inr ?_
            rw [firstVals_append_ne k _
              (by rw [keyOf_mkDraft]; exact hq)]
            exact hv

theorem applyAll_idem :
    ∀ (ps : List (DraftKey × DraftVals)) (l : List IPMTDraft),
      applyAll ps (applyAll ps l) = applyAll ps l := by
  intro ps
  induction ps with
  | nil => intro l; rfl
  | cons q ps ih =>
    intro l
    simp only [applyAll_cons]
    have hkA : hasKey q.1 (applyAll ps (upsert q.1 q.2 l)) = true :=
      hasKey_applyAll_mono q.1 ps _ (hasKey_upsert_self q.1 q.2 l)
    rw [upsert_of_hasKey q.2 hkA]
    by_cases hex : ∃ p ∈ ps, p.1 = q.1
    · rw [applyAll_setFirst_absorb q.1 q.2 ps _ hkA (Or.inl hex), ih]
    · have hfree : ∀ p ∈ ps, p.1 ≠ q.1 := by
        push_neg at hex
        exact hex
      have hfv : firstVals q.1 (applyAll ps (upsert q.1 q.2 l))
          = some q.2 := by
        rw [firstVals_applyAll_keyFree q.1 ps _ hfree]
        exact firstVals_upsert_self q.1 q.2 l
      rw [applyAll_setFirst_absorb q.1 q.2 ps _ hkA (Or.inr hfv), ih]


/- ---------------------------------------------------------------
   The save_ipmt loops as a batch of keyed writes
   --------------------------------------------------------------- -/

theorem processRows_cons (env : Env) (u : Unit) (month : String)
    (user : User) (row : IpmtSaveRow) (rest : List IpmtSaveRow)
    (store : List IPMTDraft) :
    processRows env u month user (row :: rest) store =
      processRows env u month user rest
        (processRow env u month user store row) := rfl

theorem processRow_none (env : Env) (u : Unit) (month : String)
    (user : User) (store : List IPMTDraft) (row : IpmtSaveRow)
    (h : indicatorLookup env u row.indicator = none) :
    processRow env u month user store row = store := by
  unfold processRow
  rw [h]

theorem processRow_some (env : Env) (u : Unit) (month : String)
    (user : User) (store : List IPMTDraft) (row : IpmtSaveRow)
    (ind : SuccessIndicator)
    (h : indicatorLookup env u row.indicator = some ind) :
    processRow env u month user store row =
      upsert (draftKeyFor user u month ind) (mkVals env user ind row)
        store := by
  unfold processRow
  rw [h]

theorem rowPairs_cons_none (env : Env) (u : Unit) (month : String)
    (user : User) (row : IpmtSaveRow) (rest : List IpmtSaveRow)
    (h : indicatorLookup env u row.indicator = none) :
    rowPairs env u month user (row :: rest) =
      rowPairs env u month user rest := by
  unfold rowPairs
  rw [List.filterMap_cons, h]
  rfl

theorem rowPairs_cons_some (env : Env) (u : Unit) (month : String)
    (user : User) (row : IpmtSaveRow) (rest : List IpmtSaveRow)
    (ind : SuccessIndicator)
    (h : indicatorLookup env u row.indicator = some ind) :
    rowPairs env u month user (row :: rest) =
      (draftKeyFor user u month ind, mkVals env user ind row) ::
        rowPairs env u month user rest := by
  unfold rowPairs
  rw [List.filterMap_cons, h]
  rfl

/-- The inner row loop equals the batch application of its
(key, written-fields) pairs. -/
theorem processRows_eq_applyAll (env : Env) (u : Unit) (month : String)
    (user : User) : ∀ (rows : List IpmtSaveRow) (store : List IPMTDraft),
      processRows env u month user rows store =
        applyAll (rowPairs env u month user rows) store := by
  intro rows
  induction rows with
  | nil => intro store; rfl
  | cons row rest ih =>
    intro store
    rw [processRows_cons]
    cases hi : indicatorLookup env u row.indicator with
    | none =>
      rw [rowPairs_cons_none env u month user row rest hi,
        processRow_none env u month user store row hi]
      exact ih store
    | some ind =>
      rw [rowPairs_cons_some env u month user row rest ind hi,
        applyAll_cons, processRow_some env u month user store row ind hi]
      exact ih _

/-- The outer person loop equals the batch application of the full
pair list (propagating the tokenization `IndexError`). -/
theorem loopPersons_eq_applyAll (env : Env) (u : Unit) (month : String)
    (rows : List IpmtSaveRow) :
    ∀ (persons : List String) (store : List IPMTDraft),
      loopPersons env u month rows persons store =
        Except.map (fun ps => applyAll ps store)
          (personPairs env u month rows persons) := by
  intro persons
  induction persons with
  | nil => intro store; rfl
  | cons person rest ih =>
    intro store
    rw [show loopPersons env u month rows (person :: rest) store =
        (match firstToken person with
         | none => Except.error "IndexError"
         | some tok =>
           match resolveUser env person tok with
           | none => loopPersons env u month rows rest store
           | some user =>
             loopPersons env u month rows rest
               (processRows env u month user rows store)) from rfl,
      show personPairs env u month rows (person :: rest) =
        (match firstToken person with
         | none => Except.error "IndexError"
         | some tok =>
           match resolveUser env person tok with
           | none => personPairs env u month rows rest
           | some user =>
             match personPairs env u month rows rest with
             | Except.ok ps =>
               Except.ok (rowPairs env u month user rows ++ ps)
             | Except.error e => Except.error e) from rfl]
    cases hft : firstToken person with
    | none => rfl
    | some tok =>
      dsimp only []
      cases hru : resolveUser env person tok with
      | none =>
        exact ih store
      | some user =>
        dsimp only []
        rw [ih (processRows env u month user rows store),
          processRows_eq_applyAll]
        cases hp : personPairs env u month rows rest with
        | error e => rfl
        | ok ps =>
          dsimp only [Except.map]
          rw [applyAll_append]

/- ---------------------------------------------------------------
   C2 — Aggregation upsert idempotence
   --------------------------------------------------------------- -/

/-- C2: `save_ipmt` is idempotent over the draft store — repeating a
successful call with the identical month, unit, personnel and rows
leaves the stored drafts exactly as after the first call (no
additional rows, every stored field unchanged); the upsert key is
(person, unit, month, indicator), as fixed by `draftKeyFor`/`keyOf`. -/
theorem save_ipmt_idempotent (env : Env) (month unit_name : String)
    (personnel_names : List String) (rows : List IpmtSaveRow)
    (store store' : List IPMTDraft)
    (h : save_ipmt env month unit_name personnel_names rows store =
      .ok store') :
    save_ipmt env month unit_name personnel_names rows store' =
      .ok store' := by
  unfold save_ipmt at h ⊢
  by_cases hv : month = "" ∨ unit_name = "" ∨ personnel_names = [] ∨
      rows = []
  · rw [if_pos hv] at h
    cases h
  · rw [if_neg hv] at h ⊢
    cases hu : unitLookup env unit_name with
    | none =>
      rw [hu] at h
      cases h
    | some u =>
      rw [hu] at h
      dsimp only [] at h ⊢
      rw [loopPersons_eq_applyAll] at h ⊢
      cases hp : personPairs env u month rows personnel_names with
      | error e =>
        rw [hp] at h
        cases h
      | ok ps =>
        rw [hp] at h
        dsimp only [Except.map] at h ⊢
        cases h
        rw [applyAll_idem]

/-- C2 witness: a concrete successful save, repeated on its own result,
returns that result unchanged. -/
theorem save_ipmt_idempotent_witness :
    save_ipmt sampleEnv "2025-09" "Engineering" ["Juan Dela Cruz"]
        [⟨"CF1", [1], some "did road repair", none, none⟩]
        [⟨1, 1, "2025-09", 1, "did road repair", "did road repair",
          "draft", [1]⟩] =
      .ok [⟨1, 1, "2025-09", 1, "did road repair", "did road repair",
        "draft", [1]⟩] :=
  save_ipmt_idempotent sampleEnv "2025-09" "Engineering" ["Juan Dela Cruz"]
    [⟨"CF1", [1], some "did road repair", none, none⟩] []
    [⟨1, 1, "2025-09", 1, "did road repair", "did road repair",
      "draft", [1]⟩] rfl

/- ---------------------------------------------------------------
   C9 — Linked-record replacement
   --------------------------------------------------------------- -/

theorem lastVal_cons (q : DraftKey × DraftVals)
    (ps : List (DraftKey × DraftVals)) (k : DraftKey) :
    lastVal (q :: ps) k =
      (match lastVal ps k with
       | some v => some v
       | none => if q.1 = k then some q.2 else none) := rfl

theorem lastVal_none_keyFree :
    ∀ (ps : List (DraftKey × DraftVals)) (k : DraftKey),
      lastVal ps k = none → ∀ p ∈ ps, p.1 ≠ k := by
  intro ps
  induction ps with
  | nil =>
    intro k _ p hp
    exact absurd hp (List.not_mem_nil p)
  | cons q ps ih =>
    intro k h p hp
    rw [lastVal_cons] at h
    cases hv : lastVal ps k with
    | some v =>
      rw [hv] at h
      cases h
    | none =>
      rw [hv] at h
      rcases List.mem_cons.mp hp with rfl | hp'
      · intro hk
        rw [if_pos hk] at h
        cases h
      · exact ih k hv p hp'

theorem mem_setFirst {d : IPMTDraft} (k : DraftKey) (v : DraftVals) :
    ∀ l : List IPMTDraft, d ∈ setFirst k v l →
      d ∈ l ∨ ∃ e ∈ l, keyOf e = k ∧ d = setVals v e := by
  intro l
  induction l with
  | nil =>
    intro h
    exact absurd h (List.not_mem_nil d)
  | cons e t ih =>
    intro h
    rw [setFirst_cons] at h
    by_cases he : keyOf e = k
    · rw [if_pos he] at h
      rcases List.mem_cons.mp h with rfl | ht
      · exact Or.inr ⟨e, List.mem_cons_self e t, he, rfl⟩
      · exact Or.inl (List.mem_cons_of_mem e ht)
    · rw [if_neg he] at h
      rcases List.mem_cons.mp h with rfl | ht
      · exact Or.inl (List.mem_cons_self d t)
      · rcases ih ht with h1 | ⟨e', he', hk', hd'⟩
        · exact Or.inl (List.mem_cons_of_mem e h1)
        · exact Or.inr ⟨e', List.mem_cons_of_mem e he', hk', hd'⟩

theorem mem_upsert {d : IPMTDraft} (k : DraftKey) (v : DraftVals)
    (l : List IPMTDraft) (h : d ∈ upsert k v l) :
    d ∈ l ∨ (∃ e ∈ l, keyOf e = k ∧ d = setVals v e) ∨
      d = mkDraft k v := by
  cases hk : hasKey k l
  · rw [upsert_of_not_hasKey v hk] at h
    rcases List.mem_append.mp h with h1 | h2
    · exact Or.inl h1
    · exact Or.inr (Or.inr (by simpa using h2))
  · rw [upsert_of_hasKey v hk] at h
    rcases mem_setFirst k v l h with h1 | h2
    · exact Or.inl h1
    · exact Or.inr (Or.inl h2)

theorem mem_applyAll_keyFree {d : IPMTDraft} :
    ∀ (ps : List (DraftKey × DraftVals)) (l : List IPMTDraft),
      (∀ p ∈ ps, p.1 ≠ keyOf d) → d ∈ applyAll ps l → d ∈ l := by
  intro ps
  induction ps with
  | nil => intro l _ h; exact h
  | cons q ps ih =>
    intro l hf h
    rw [applyAll_cons] at h
    have h' := ih _ (fun p hp => hf p (List.mem_cons_of_mem q hp)) h
    rcases mem_upsert q.1 q.2 l h' with h1 | ⟨e, _, hek, hde⟩ | h2
    · exact h1
    · exfalso
      have hkd : keyOf d = q.1 := by
        rw [hde, keyOf_setVals, hek]
      exact hf q (List.mem_cons_self q ps) hkd.symm
    · exfalso
      have hkd : keyOf d = q.1 := by
        rw [h2, keyOf_mkDraft]
      exact hf q (List.mem_cons_self q ps) hkd.symm

theorem keysOf_cons (d : IPMTDraft) (t : List IPMTDraft) :
    keysOf (d :: t) = keyOf d :: keysOf t := rfl

theorem keysOf_upsert_nodup (k : DraftKey) (v : DraftVals)
    (l : List IPMTDraft) (h : (keysOf l).Nodup) :
    (keysOf (upsert k v l)).Nodup := by
  cases hk : hasKey k l
  · rw [upsert_of_not_hasKey v hk]
    rw [show keysOf (l ++ [mkDraft k v]) = keysOf l ++ [k] by
      simp [keysOf, keyOf_mkDraft]]
    rw [List.nodup_append]
    refine ⟨h, List.nodup_singleton k, ?_⟩
    intro a ha hb
    rw [List.mem_singleton] at hb
    subst hb
    have : hasKey a l = true := (hasKey_iff_mem_keysOf a l).mpr ha
    rw [hk] at this
    cases this
  · rw [upsert_of_hasKey v hk, keysOf_setFirst]
    exact h

theorem mem_setFirst_of_key {d : IPMTDraft} (k : DraftKey) (v : DraftVals) :
    ∀ l : List IPMTDraft, (keysOf l).Nodup → keyOf d = k →
      d ∈ setFirst k v l → ∃ e ∈ l, keyOf e = k ∧ d = setVals v e := by
  intro l
  induction l with
  | nil =>
    intro _ _ h
    exact absurd h (List.not_mem_nil d)
  | cons e t ih =>
    intro hnd hdk h
    rw [setFirst_cons] at h
    by_cases he : keyOf e = k
    · rw [if_pos he] at h
      rcases List.mem_cons.mp h with rfl | ht
      · exact ⟨e, List.mem_cons_self e t, he, rfl⟩
      · exfalso
        have h1 : keyOf d ∈ keysOf t := List.mem_map_of_mem keyOf ht
        rw [keysOf_cons] at hnd
        have h2 : keyOf e ∉ keysOf t := (List.nodup_cons.mp hnd).1
        rw [hdk] at h1
        rw [he] at h2
        exact h2 h1
    · rw [if_neg he] at h
      rcases List.mem_cons.mp h with rfl | ht
      · exact absurd hdk he
      · rw [keysOf_cons] at hnd
        obtain ⟨e', he', hk', hd'⟩ :=
          ih (List.nodup_cons.mp hnd).2 hdk ht
        exact ⟨e', List.mem_cons_of_mem e he', hk', hd'⟩

/-- The written-fields invariant behind C9: after a batch of keyed
writes over a duplicate-free store, every stored draft whose key the
batch wrote carries exactly the batch's last written fields for that
key. -/
theorem applyAll_lastVal_vals :
    ∀ (ps : List (DraftKey × DraftVals)) (l : List IPMTDraft),
      (keysOf l).Nodup → ∀ d ∈ applyAll ps l, ∀ v,
        lastVal ps (keyOf d) = some v → valsOf d = v := by
  intro ps
  induction ps with
  | nil =>
    intro l _ d _ v hv
    cases hv
  | cons q ps ih =>
    intro l hnd d hd v hv
    rw [applyAll_cons] at hd
    have hnd' : (keysOf (upsert q.1 q.2 l)).Nodup :=
      keysOf_upsert_nodup q.1 q.2 l hnd
    rw [lastVal_cons] at hv
    cases hlv : lastVal ps (keyOf d) with
    | some w =>
      rw [hlv] at hv
      cases hv
      exact ih _ hnd' d hd v hlv
    | none =>
      rw [hlv] at hv
      by_cases hqk : q.1 = keyOf d
      · rw [if_pos hqk] at hv
        cases hv
        have hfree : ∀ p ∈ ps, p.1 ≠ keyOf d :=
          lastVal_none_keyFree ps (keyOf d) hlv
        have hmem : d ∈ upsert q.1 q.2 l :=
          mem_applyAll_keyFree ps _ hfree hd
        cases hk : hasKey q.1 l
        · rw [upsert_of_not_hasKey q.2 hk] at hmem
          rcases List.mem_append.mp hmem with h1 | h2
          · exfalso
            have : hasKey q.1 l = true :=
              (hasKey_iff_mem_keysOf q.1 l).mpr
                (by rw [hqk]; exact List.mem_map_of_mem keyOf h1)
            rw [hk] at this
            cases this
          · have hde : d = mkDraft q.1 q.2 := by simpa using h2
            rw [hde, valsOf_mkDraft]
        · rw [upsert_of_hasKey q.2 hk] at hmem
          obtain ⟨e, _, _, hde⟩ :=
            mem_setFirst_of_key q.1 q.2 l hnd hqk.symm hmem
          rw [hde, valsOf_setVals]
      · rw [if_neg hqk] at hv
        cases hv

/-- C9: a successful `save_ipmt` call replaces the linked-record set
of every draft it addresses with exactly the records resolved for
this call (the last write of the call's batch for that key), and a
draft whose key the call did not write is left in the store
untouched — no link from an earlier call survives unless
re-resolved. -/
theorem save_ipmt_replaces_linked_reports (env : Env)
    (month unit_name : String) (personnel_names : List String)
    (rows : List IpmtSaveRow) (store store' : List IPMTDraft)
    (u : Unit) (prs : List (DraftKey × DraftVals))
    (hnd : (keysOf store).Nodup)
    (hu : unitLookup env unit_name = some u)
    (hp : personPairs env u month rows personnel_names = .ok prs)
    (hs : save_ipmt env month unit_name personnel_names rows store =
      .ok store') :
    ∀ d ∈ store',
      (∀ v, lastVal prs (keyOf d) = some v → d.reports = v.reports) ∧
      (lastVal prs (keyOf d) = none → d ∈ store) := by
  unfold save_ipmt at hs
  split at hs
  · cases hs
  · rw [hu] at hs
    dsimp only [] at hs
    rw [loopPersons_eq_applyAll, hp] at hs
    dsimp only [Except.map] at hs
    cases hs
    intro d hd
    constructor
    · intro v hv
      have hvals := applyAll_lastVal_vals prs store hnd d hd v hv
      calc d.reports = (valsOf d).reports := rfl
        _ = v.reports := by rw [hvals]
    · intro hv
      exact mem_applyAll_keyFree prs store
        (lastVal_none_keyFree prs (keyOf d) hv) hd

/-- C9 witness: saving over a store holding the same key with stale
links `[5]` leaves the draft linked to exactly the freshly resolved
record set `[1]` (and keeps its other fields, here `status`). -/
theorem save_ipmt_replaces_linked_reports_witness :
    (⟨1, 1, "2025-09", 1, "x", "x", "final", [1]⟩ : IPMTDraft).reports =
      (⟨"x", "x", [1]⟩ : DraftVals).reports :=
  (save_ipmt_replaces_linked_reports sampleEnv "2025-09" "Engineering"
      ["Juan Dela Cruz"] [⟨"CF1", [1], some "x", none, none⟩]
      [⟨1, 1, "2025-09", 1, "old", "old", "final", [5]⟩]
      [⟨1, 1, "2025-09", 1, "x", "x", "final", [1]⟩]
      sampleUnit [((1, 1, "2025-09", 1), ⟨"x", "x", [1]⟩)]
      (by decide) rfl rfl rfl
      ⟨1, 1, "2025-09", 1, "x", "x", "final", [1]⟩
      (List.mem_singleton.mpr rfl)).1
    ⟨"x", "x", [1]⟩ rfl

end GSO
